import Mathlib

/-!
GitLab project share-group resource.

A shallow embedding of `gitlab/resource_gitlab_project_share_group.go`: the
composite identity of a share, the access-level translation, and the four
lifecycle callbacks (Create, Read, Update, Delete) run against an API client
whose replies are arbitrary functions of an abstract server state.

Go values are embedded as follows: `string` is `String` (the separator and the
digits are ASCII, so working on characters agrees with working on bytes),
`int` is `Int` restricted to the 64-bit range where it matters, `error` is
`Option GoError` with `none` for `nil`, and a Go map index yields the zero
value of the element type when the key is absent.
-/

namespace Gitlab

/-! ## Errors -/

/-- The two error kinds of `strconv`: malformed text, or a value out of range. -/
inductive NumErrKind where
  | invalid
  | outOfRange
  deriving DecidableEq, Repr

/-- The errors that can flow through the resource. -/
inductive GoError where
  /-- A `*strconv.NumError` with its function name, input and kind. -/
  | NumError (Func Num : String) (Err : NumErrKind)
  /-- The format error of `parseTwoPartID`. -/
  | UnexpectedID (id : String)
  /-- The error of `validateValueFunc` for a value and an argument name. -/
  | InvalidValue (value key : String)
  /-- Any error reported by the API client. -/
  | API (msg : String)
  deriving DecidableEq, Repr

/-! ## strconv -/

/-- The character of a decimal digit `d < 10`. -/
def digitChar (d : Nat) : Char := Char.ofNat (48 + d)

/-- The digit loop of `strconv.FormatInt` in base 10: the decimal digits of `u`
are put in front of `acc`, least significant first. The loop divides `u` by ten
each round, so `u + 1` rounds always suffice. -/
def formatDec : Nat → Nat → List Char → List Char
  | 0, _, acc => acc
  | fuel + 1, u, acc =>
    if u < 10 then digitChar u :: acc
    else formatDec fuel (u / 10) (digitChar (u % 10) :: acc)

/-- Go `strconv.Itoa`: the decimal text of an integer, with a leading minus sign
for a negative one. -/
def Itoa (i : Int) : String :=
  if i < 0 then String.mk ('-' :: formatDec (i.natAbs + 1) i.natAbs [])
  else String.mk (formatDec (i.natAbs + 1) i.natAbs [])

/-- Largest value of a `uint64`. -/
def maxUint64 : Nat := 18446744073709551615

/-- Bound of `ParseUint` above which multiplying by ten overflows. -/
def uintCutoff : Nat := maxUint64 / 10 + 1

/-- The digit loop of `strconv.ParseUint` in base 10 with 64 bits: a character
that is not a decimal digit is a syntax error with value 0, an overflow is a
range error with the largest value, and both are reported at the first
offending character. -/
def parseUintLoop (n : Nat) : List Char → Nat × Option NumErrKind
  | [] => (n, none)
  | c :: cs =>
    if !c.isDigit then (0, some NumErrKind.invalid)
    else if n ≥ uintCutoff then (maxUint64, some NumErrKind.outOfRange)
    else if n * 10 + (c.toNat - 48) > maxUint64 then (maxUint64, some NumErrKind.outOfRange)
    else parseUintLoop (n * 10 + (c.toNat - 48)) cs

/-- Go `strconv.ParseUint(s, 10, 64)`. -/
def ParseUint (s : List Char) : Nat × Option NumErrKind :=
  match s with
  | [] => (0, some NumErrKind.invalid)
  | _ => parseUintLoop 0 s

/-- Bound of `ParseInt` for 64 bits: `1 << 63`. -/
def intCutoff : Nat := 9223372036854775808

/-- Go `strconv.ParseInt(s, 10, 64)`: an optional sign, then `ParseUint`; a
syntax error gives 0, a magnitude out of range gives the nearest bound with a
range error. -/
def ParseInt (s : List Char) : Int × Option NumErrKind :=
  match s with
  | [] => (0, some NumErrKind.invalid)
  | c :: cs =>
    let neg := c == '-'
    let body := if c == '+' || c == '-' then cs else c :: cs
    match ParseUint body with
    | (_, some NumErrKind.invalid) => (0, some NumErrKind.invalid)
    | (un, _) =>
      if !neg && un ≥ intCutoff then (Int.ofNat (intCutoff - 1), some NumErrKind.outOfRange)
      else if neg && un > intCutoff then (-Int.ofNat intCutoff, some NumErrKind.outOfRange)
      else (if neg then -Int.ofNat un else Int.ofNat un, none)

/-- Go `strconv.Atoi` on a platform with 64-bit `int`: `ParseInt(s, 10, 0)`
with the error relabelled to the function `Atoi` (the short-input path of the
library returns the same values). -/
def Atoi (s : String) : Int × Option GoError :=
  match ParseInt s.toList with
  | (i, none) => (i, none)
  | (i, some k) => (i, some (GoError.NumError "Atoi" s k))

/-- The integers a Go `int` can hold on a 64-bit platform. -/
def IsGoInt (i : Int) : Prop := -9223372036854775808 ≤ i ∧ i ≤ 9223372036854775807

instance (i : Int) : Decidable (IsGoInt i) := by unfold IsGoInt; infer_instance

/-! ## Two-part identities -/

/-- Modelled from the spec: `buildTwoPartID` is defined elsewhere in the
provider package. The two strings are joined into an id of the form a:b, the
project ID, the fixed separator and the group ID. -/
def buildTwoPartID (a b : String) : String := a ++ ":" ++ b

/-- Split a character sequence at every colon, keeping empty pieces, as
`strings.Split(s, ":")`. -/
def splitColon : List Char → List (List Char)
  | [] => [[]]
  | c :: cs =>
    if c = ':' then [] :: splitColon cs
    else
      match splitColon cs with
      | [] => [[c]]
      | piece :: pieces => (c :: piece) :: pieces

/-- Modelled from the spec: `parseTwoPartID` is defined elsewhere in the
provider package. The identity is split on the fixed separator `:`; a string
that cannot be split into exactly two parts is a decode error, reported with
empty strings for both parts. -/
def parseTwoPartID (id : String) : String × String × Option GoError :=
  match splitColon id.toList with
  | [a, b] => (String.mk a, String.mk b, none)
  | _ => ("", "", some (GoError.UnexpectedID id))

/-- Decode an identity into project ID and group ID: `projectIdAndGroupIdFromId`.
The group ID text is converted even when the split failed, and the split error
takes precedence over the conversion error. -/
def projectIdAndGroupIdFromId (id : String) : String × Int × Option GoError :=
  let (projectId, groupIdString, err) := parseTwoPartID id
  let (groupId, e) := Atoi groupIdString
  let e := if err ≠ none then err else e
  (projectId, groupId, e)

/-! ## strings -/

/-- Go `strings.ToLower`. A string of ASCII characters is returned as it is when
it has no upper-case letter, and with the letters A to Z lowered otherwise; any
other string is mapped character by character through `unicode.ToLower`, which
is taken as the argument `unicodeToLower`. -/
def ToLower (unicodeToLower : Char → Char) (s : String) : String :=
  if s.toList.all (fun c => c.toNat < 128) then
    if s.toList.any Char.isUpper then String.mk (s.toList.map Char.toLower) else s
  else String.mk (s.toList.map unicodeToLower)

/-! ## Access levels -/

/-- Modelled from the spec: the access-level tables `accessLevelID` and
`accessLevel` are defined elsewhere in the provider package. The spec describes
one static bidirectional mapping between symbolic names and integer API codes,
so the mapping is a list of (name, code) pairs that the operations take as an
argument. -/
abbrev AccessLevelTable := List (String × Int)

/-- Modelled from the spec: the mapping is bidirectional when no two names share
a code. -/
def Bidirectional (tbl : AccessLevelTable) : Prop := (tbl.map Prod.snd).Nodup

instance (tbl : AccessLevelTable) : Decidable (Bidirectional tbl) := by
  unfold Bidirectional; infer_instance

/-- Modelled from the spec: the Go map index `accessLevelID[k]`, the code of the
name `k`, or the zero value of `AccessLevelValue` when `k` is not a key. -/
def accessLevelID (tbl : AccessLevelTable) (k : String) : Int :=
  match tbl.find? (fun e => e.1 == k) with
  | some e => e.2
  | none => 0

/-- Modelled from the spec: the Go map index `accessLevel[v]` of the inverse
table, the name of the code `v`, or the empty string when `v` is not a key. -/
def accessLevel (tbl : AccessLevelTable) (v : Int) : String :=
  match tbl.find? (fun e => e.2 == v) with
  | some e => e.1
  | none => ""

/-- Modelled from the spec: the names and codes of the GitLab API. The spec
names the levels developer (code 30), maintainer and owner. -/
def gitlabAccessLevels : AccessLevelTable :=
  [("guest", 10), ("reporter", 20), ("developer", 30), ("maintainer", 40), ("owner", 50)]

/-- The list built at the start of `resourceGitlabProjectShareGroup`: every key
of `accessLevelID` other than owner. -/
def acceptedAccessLevels (tbl : AccessLevelTable) : List String :=
  (tbl.map Prod.fst).filter (fun k => k != "owner")

/-- Modelled from the spec: `validateValueFunc` is defined elsewhere in the
provider package. Validation fails when the value is outside the accepted set;
the result is the pair of warnings and errors of a schema validation function. -/
def validateValueFunc (values : List String) (v k : String) : List String × List GoError :=
  if v ∈ values then ([], []) else ([], [GoError.InvalidValue v k])

/-! ## Data model -/

/-- The fields of `schema.ResourceData` for this resource, with the id. -/
structure ResourceData where
  project_id : String
  group_id : Int
  access_level : String
  id : String
  deriving DecidableEq, Repr

/-- The options of a share request: `gitlab.ShareWithGroupOptions`. -/
structure ShareWithGroupOptions where
  GroupID : Int
  GroupAccess : Int
  deriving DecidableEq, Repr

/-- An entry of `Project.SharedWithGroups`. -/
structure SharedGroup where
  GroupID : Int
  GroupName : String
  GroupAccessLevel : Int
  deriving DecidableEq, Repr

/-- The part of `gitlab.Project` that the resource reads. -/
structure Project where
  SharedWithGroups : List SharedGroup
  deriving DecidableEq, Repr

/-- The three operations of the API client used by the resource. Each reply is
a function of the server state `σ` and of the request, and yields the next
server state. -/
structure Client (σ : Type) where
  ShareProjectWithGroup : σ → String → ShareWithGroupOptions → Option GoError × σ
  GetProject : σ → String → Except GoError Project × σ
  DeleteSharedProjectFromGroup : σ → String → Int → Option GoError × σ

/-- A call issued to the API client, with the reply it got. -/
inductive Call where
  | ShareProjectWithGroup (pid : String) (opt : ShareWithGroupOptions) (err : Option GoError)
  | GetProject (pid : String) (res : Except GoError Project)
  | DeleteSharedProjectFromGroup (pid : String) (group : Int) (err : Option GoError)

/-- Whether a call is a share request. -/
def Call.isShare : Call → Bool
  | Call.ShareProjectWithGroup _ _ _ => true
  | _ => false

/-- What a lifecycle callback leaves behind: the returned error, the resource
data, the server state, and the client calls it issued, in order. -/
structure Outcome (σ : Type) where
  err : Option GoError
  d : ResourceData
  server : σ
  calls : List Call

/-! ## Lifecycle callbacks -/

/-- Write one entry of the share list to the state:
`resourceGitlabProjectShareGroupSetToState`. -/
def resourceGitlabProjectShareGroupSetToState (tbl : AccessLevelTable) (d : ResourceData)
    (group : SharedGroup) (projectId : String) : ResourceData :=
  let convertedAccessLevel : Int := group.GroupAccessLevel
  let d := { d with project_id := projectId }
  let d := { d with group_id := group.GroupID }
  let d := { d with access_level := accessLevel tbl convertedAccessLevel }
  let groupId := Itoa group.GroupID
  { d with id := buildTwoPartID projectId groupId }

/-- The loop of Read over `SharedWithGroups`: every entry whose group ID matches
is written to the state, in list order. -/
def scanSharedWithGroups (tbl : AccessLevelTable) (projectId : String) (groupId : Int) :
    ResourceData → List SharedGroup → ResourceData
  | d, [] => d
  | d, v :: vs =>
    if groupId = v.GroupID then
      scanSharedWithGroups tbl projectId groupId
        (resourceGitlabProjectShareGroupSetToState tbl d v projectId) vs
    else scanSharedWithGroups tbl projectId groupId d vs

/-- Read callback: `resourceGitlabProjectShareGroupRead`. -/
def resourceGitlabProjectShareGroupRead {σ : Type} (tbl : AccessLevelTable) (client : Client σ)
    (d : ResourceData) (s : σ) : Outcome σ :=
  let id := d.id
  match projectIdAndGroupIdFromId id with
  | (_, _, some e) => { err := some e, d := d, server := s, calls := [] }
  | (projectId, groupId, none) =>
    match client.GetProject s projectId with
    | (Except.error err, s1) =>
      { err := some err, d := d, server := s1,
        calls := [Call.GetProject projectId (Except.error err)] }
    | (Except.ok projectInformation, s1) =>
      { err := none,
        d := scanSharedWithGroups tbl projectId groupId d projectInformation.SharedWithGroups,
        server := s1,
        calls := [Call.GetProject projectId (Except.ok projectInformation)] }

/-- Create callback: `resourceGitlabProjectShareGroupCreate`. -/
def resourceGitlabProjectShareGroupCreate {σ : Type} (tbl : AccessLevelTable)
    (client : Client σ) (d : ResourceData) (s : σ) : Outcome σ :=
  let groupId := d.group_id
  let projectId := d.project_id
  let accessLevelId := accessLevelID tbl d.access_level
  let options : ShareWithGroupOptions := { GroupID := groupId, GroupAccess := accessLevelId }
  match client.ShareProjectWithGroup s projectId options with
  | (some err, s1) =>
    { err := some err, d := d, server := s1,
      calls := [Call.ShareProjectWithGroup projectId options (some err)] }
  | (none, s1) =>
    let groupIdString := Itoa groupId
    let d1 := { d with id := buildTwoPartID projectId groupIdString }
    let r := resourceGitlabProjectShareGroupRead tbl client d1 s1
    { r with calls := Call.ShareProjectWithGroup projectId options none :: r.calls }

/-- Update callback: `resourceGitlabProjectShareGroupUpdate`. -/
def resourceGitlabProjectShareGroupUpdate {σ : Type} (unicodeToLower : Char → Char)
    (tbl : AccessLevelTable) (client : Client σ) (d : ResourceData) (s : σ) : Outcome σ :=
  let groupId := d.group_id
  let projectId := d.project_id
  let accessLevelId := accessLevelID tbl (ToLower unicodeToLower d.access_level)
  let options : ShareWithGroupOptions := { GroupID := groupId, GroupAccess := accessLevelId }
  match client.ShareProjectWithGroup s projectId options with
  | (some err, s1) =>
    { err := some err, d := d, server := s1,
      calls := [Call.ShareProjectWithGroup projectId options (some err)] }
  | (none, s1) =>
    let r := resourceGitlabProjectShareGroupRead tbl client d s1
    { r with calls := Call.ShareProjectWithGroup projectId options none :: r.calls }

/-- Delete callback: `resourceGitlabProjectShareGroupDelete`. -/
def resourceGitlabProjectShareGroupDelete {σ : Type} (client : Client σ)
    (d : ResourceData) (s : σ) : Outcome σ :=
  let id := d.id
  match projectIdAndGroupIdFromId id with
  | (_, _, some e) => { err := some e, d := d, server := s, calls := [] }
  | (projectId, groupId, none) =>
    match client.DeleteSharedProjectFromGroup s projectId groupId with
    | (err, s1) =>
      { err := err, d := d, server := s1,
        calls := [Call.DeleteSharedProjectFromGroup projectId groupId err] }

/-- The resource returned by `resourceGitlabProjectShareGroup`: the four
callbacks and the validation function of the `access_level` field. -/
structure Resource (σ : Type) where
  Create : Client σ → ResourceData → σ → Outcome σ
  Read : Client σ → ResourceData → σ → Outcome σ
  Update : Client σ → ResourceData → σ → Outcome σ
  Delete : Client σ → ResourceData → σ → Outcome σ
  ValidateFunc : String → String → List String × List GoError

/-- The resource definition: `resourceGitlabProjectShareGroup`. -/
def resourceGitlabProjectShareGroup {σ : Type} (unicodeToLower : Char → Char)
    (tbl : AccessLevelTable) : Resource σ :=
  { Create := resourceGitlabProjectShareGroupCreate tbl
    Read := resourceGitlabProjectShareGroupRead tbl
    Update := resourceGitlabProjectShareGroupUpdate unicodeToLower tbl
    Delete := resourceGitlabProjectShareGroupDelete
    ValidateFunc := validateValueFunc (acceptedAccessLevels tbl) }

/-- Modelled from the spec: the host runtime's side of the schema contract for
a callback that takes configuration, which is not part of the resource file.
The `access_level` of the configuration goes through the field's validation
function first, and the callback runs only when that reports no error, so an
invalid value is rejected before any network call. -/
def validated {σ : Type} (r : Resource σ)
    (callback : Client σ → ResourceData → σ → Outcome σ)
    (client : Client σ) (d : ResourceData) (s : σ) : Outcome σ :=
  match (r.ValidateFunc d.access_level "access_level").2 with
  | [] => callback client d s
  | e :: _ => { err := some e, d := d, server := s, calls := [] }

/-- Create as the host runtime runs it. -/
def applyCreate {σ : Type} (r : Resource σ) (client : Client σ) (d : ResourceData) (s : σ) :
    Outcome σ :=
  validated r r.Create client d s

/-- Update as the host runtime runs it. -/
def applyUpdate {σ : Type} (r : Resource σ) (client : Client σ) (d : ResourceData) (s : σ) :
    Outcome σ :=
  validated r r.Update client d s

/-- The share requests among a sequence of client calls: project ID and options
of each `ShareProjectWithGroup` call, in order. -/
def shareRequests : List Call → List (String × ShareWithGroupOptions)
  | [] => []
  | Call.ShareProjectWithGroup pid opt _ :: cs => (pid, opt) :: shareRequests cs
  | _ :: cs => shareRequests cs

/-- A client over a trivial server state whose three operations always give the
same replies. -/
def fixedClient (share : Option GoError) (project : Except GoError Project)
    (delete : Option GoError) : Client Unit :=
  { ShareProjectWithGroup := fun s _ _ => (share, s)
    GetProject := fun s _ => (project, s)
    DeleteSharedProjectFromGroup := fun s _ _ => (delete, s) }

/-! ## Lemmas on the decimal conversions -/

theorem digitChar_isDigit (d : Nat) (h : d < 10) : (digitChar d).isDigit = true := by
  interval_cases d <;> decide

theorem digitChar_value (d : Nat) (h : d < 10) : (digitChar d).toNat - 48 = d := by
  interval_cases d <;> decide

theorem isDigit_ne_colon (c : Char) (h : c.isDigit = true) : c ≠ ':' := by
  intro hc; subst hc; revert h; decide

theorem isDigit_ne_minus (c : Char) (h : c.isDigit = true) : c ≠ '-' := by
  intro hc; subst hc; revert h; decide

theorem isDigit_ne_plus (c : Char) (h : c.isDigit = true) : c ≠ '+' := by
  intro hc; subst hc; revert h; decide

theorem uintCutoff_eq : uintCutoff = 1844674407370955162 := by decide

/-- One round of the parsing loop on a digit that does not overflow. -/
theorem parseUintLoop_digit (n d : Nat) (tail : List Char) (hd : d < 10)
    (hb : n * 10 + d ≤ maxUint64) :
    parseUintLoop n (digitChar d :: tail) = parseUintLoop (n * 10 + d) tail := by
  have h1 : ¬ n ≥ uintCutoff := by
    rw [uintCutoff_eq]; unfold maxUint64 at hb; omega
  have h2 : ¬ n * 10 + d > maxUint64 := by omega
  simp [parseUintLoop, digitChar_isDigit d hd, digitChar_value d hd, h1, h2]

/-- Parsing the digits that `formatDec` wrote for `u` appends `u` to the value
read so far, as long as the result fits in a `uint64`. -/
theorem parseUintLoop_formatDec : ∀ (fuel u : Nat), u < fuel →
    ∃ k : Nat, ∀ (n : Nat) (tail : List Char), n * 10 ^ k + u ≤ maxUint64 →
      parseUintLoop n (formatDec fuel u tail) = parseUintLoop (n * 10 ^ k + u) tail := by
  intro fuel
  induction fuel with
  | zero => intro u hu; omega
  | succ fuel ih =>
    intro u hu
    by_cases h : u < 10
    · refine ⟨1, ?_⟩
      intro n tail hb
      simp only [formatDec, h, if_true, pow_one] at hb ⊢
      exact parseUintLoop_digit n u tail h hb
    · obtain ⟨k, hk⟩ := ih (u / 10) (by omega)
      refine ⟨k + 1, ?_⟩
      intro n tail hb
      have e : n * 10 ^ (k + 1) + u = (n * 10 ^ k + u / 10) * 10 + u % 10 := by
        rw [pow_succ, ← mul_assoc]
        generalize n * 10 ^ k = x
        omega
      simp only [formatDec, h, if_false]
      rw [hk n _ (by omega), parseUintLoop_digit _ _ _ (by omega) (by omega), e]

/-- Every character written by `formatDec` is a decimal digit. -/
theorem formatDec_chars : ∀ (fuel u : Nat) (acc : List Char) (c : Char),
    c ∈ formatDec fuel u acc → c.isDigit = true ∨ c ∈ acc := by
  intro fuel
  induction fuel with
  | zero => intro u acc c hc; exact Or.inr hc
  | succ fuel ih =>
    intro u acc c hc
    by_cases h : u < 10
    · simp only [formatDec, h, if_true, List.mem_cons] at hc
      rcases hc with hc | hc
      · exact Or.inl (hc ▸ digitChar_isDigit u h)
      · exact Or.inr hc
    · simp only [formatDec, h, if_false] at hc
      rcases ih _ _ _ hc with hc | hc
      · exact Or.inl hc
      · rcases List.mem_cons.mp hc with hc | hc
        · exact Or.inl (hc ▸ digitChar_isDigit (u % 10) (by omega))
        · exact Or.inr hc

/-- With fuel left, `formatDec` writes at least one character. -/
theorem formatDec_ne_nil : ∀ (fuel u : Nat) (acc : List Char),
    formatDec (fuel + 1) u acc ≠ [] := by
  intro fuel
  induction fuel with
  | zero =>
    intro u acc
    by_cases h : u < 10 <;> simp [formatDec, h]
  | succ fuel ih =>
    intro u acc
    by_cases h : u < 10
    · simp [formatDec, h]
    · have := ih (u / 10) (digitChar (u % 10) :: acc)
      rw [formatDec]
      simpa [h] using this

/-- The text of a natural number that fits in a `uint64` parses back to it. -/
theorem ParseUint_formatDec (u : Nat) (h : u ≤ maxUint64) :
    ParseUint (formatDec (u + 1) u []) = (u, none) := by
  obtain ⟨k, hk⟩ := parseUintLoop_formatDec (u + 1) u (by omega)
  have h0 := hk 0 [] (by omega)
  have hne := formatDec_ne_nil u u []
  unfold ParseUint
  split
  · contradiction
  · rw [h0]; simp [parseUintLoop]

/-- The text written by `Itoa` holds no colon. -/
theorem Itoa_no_colon (i : Int) : ':' ∉ (Itoa i).toList := by
  intro hc
  unfold Itoa at hc
  split at hc
  · simp only [String.toList, List.mem_cons] at hc
    rcases hc with hc | hc
    · exact absurd hc (by decide)
    · rcases formatDec_chars _ _ _ _ hc with h | h
      · exact isDigit_ne_colon _ h rfl
      · simp at h
  · simp only [String.toList] at hc
    rcases formatDec_chars _ _ _ _ hc with h | h
    · exact isDigit_ne_colon _ h rfl
    · simp at h

/-- Converting the text of a Go `int` back gives the integer and no error. -/
theorem ParseInt_Itoa (i : Int) (h : IsGoInt i) : ParseInt (Itoa i).toList = (i, none) := by
  obtain ⟨hlo, hhi⟩ := h
  unfold Itoa
  by_cases hneg : i < 0
  · have hu : i.natAbs ≤ maxUint64 := by unfold maxUint64; omega
    have hp := ParseUint_formatDec i.natAbs hu
    have hcut : ¬ i.natAbs > intCutoff := by unfold intCutoff; omega
    simp [hneg, ParseInt, String.toList, hp, hcut]
    rw [abs_of_neg hneg, neg_neg]
  · have hu : i.natAbs ≤ maxUint64 := by unfold maxUint64; omega
    have hp := ParseUint_formatDec i.natAbs hu
    have hcut : ¬ i.natAbs ≥ intCutoff := by unfold intCutoff; omega
    obtain ⟨c, cs, hcs⟩ := List.exists_cons_of_ne_nil (formatDec_ne_nil i.natAbs i.natAbs [])
    have hdig : c.isDigit = true := by
      rcases formatDec_chars (i.natAbs + 1) i.natAbs [] c (by rw [hcs]; simp) with h | h
      · exact h
      · simp at h
    have hm := isDigit_ne_minus c hdig
    have hpl := isDigit_ne_plus c hdig
    rw [hcs] at hp
    simp [hneg, ParseInt, String.toList, hcs, hm, hpl, hp, hcut]
    omega

/-- The round trip of `Itoa` and `Atoi` on a Go `int`. -/
theorem Atoi_Itoa (i : Int) (h : IsGoInt i) : Atoi (Itoa i) = (i, none) := by
  unfold Atoi
  rw [ParseInt_Itoa i h]

/-! ## Lemmas on two-part identities -/

theorem buildTwoPartID_toList (a b : String) :
    (buildTwoPartID a b).toList = a.toList ++ ':' :: b.toList := by
  simp [buildTwoPartID, String.toList]

/-- The number of pieces is one more than the number of colons. -/
theorem splitColon_length (l : List Char) : (splitColon l).length = l.count ':' + 1 := by
  induction l with
  | nil => simp [splitColon]
  | cons c cs ih =>
    by_cases h : c = ':'
    · subst h
      simp [splitColon, ih]
    · have hc : (':' == c) = false := by
        simp only [beq_eq_false_iff_ne, ne_eq]
        exact fun e => h e.symm
      cases hs : splitColon cs with
      | nil => rw [hs] at ih; simp at ih
      | cons piece pieces =>
        rw [hs] at ih
        simp only [List.length_cons] at ih
        simp [splitColon, h, hs, List.count_cons, ih, hc]

theorem splitColon_no_colon (l : List Char) (h : ':' ∉ l) : splitColon l = [l] := by
  induction l with
  | nil => simp [splitColon]
  | cons c cs ih =>
    have hc : c ≠ ':' := fun e => h (by simp [e])
    have hcs : ':' ∉ cs := fun e => h (by simp [e])
    simp [splitColon, hc, ih hcs]

theorem splitColon_append (a b : List Char) (h : ':' ∉ a) :
    splitColon (a ++ ':' :: b) = a :: splitColon b := by
  induction a with
  | nil => simp [splitColon]
  | cons c cs ih =>
    have hc : c ≠ ':' := fun e => h (by simp [e])
    have hcs : ':' ∉ cs := fun e => h (by simp [e])
    simp [splitColon, hc, ih hcs]

theorem parseTwoPartID_error (id : String) (h : (splitColon id.toList).length ≠ 2) :
    parseTwoPartID id = ("", "", some (GoError.UnexpectedID id)) := by
  unfold parseTwoPartID
  split
  · rename_i a b heq
    rw [heq] at h
    simp at h
  · rfl

theorem parseTwoPartID_build (a b : String) (ha : ':' ∉ a.toList) (hb : ':' ∉ b.toList) :
    parseTwoPartID (buildTwoPartID a b) = (a, b, none) := by
  unfold parseTwoPartID
  rw [buildTwoPartID_toList, splitColon_append _ _ ha, splitColon_no_colon _ hb]
  rfl

/-- A failed split makes the decoding fail. -/
theorem decode_error_of_split (id : String) (h : (splitColon id.toList).length ≠ 2) :
    (projectIdAndGroupIdFromId id).2.2 = some (GoError.UnexpectedID id) := by
  simp [projectIdAndGroupIdFromId, parseTwoPartID_error id h]

/-- Decoding an identity built from parts without a colon converts the second
part. -/
theorem decode_build (a b : String) (ha : ':' ∉ a.toList) (hb : ':' ∉ b.toList) :
    projectIdAndGroupIdFromId (buildTwoPartID a b) = (a, (Atoi b).1, (Atoi b).2) := by
  simp [projectIdAndGroupIdFromId, parseTwoPartID_build a b ha hb]

/-- Decoding the identity of a project ID without a colon and a Go `int`. -/
theorem decode_build_Itoa (p : String) (g : Int) (hp : ':' ∉ p.toList) (hg : IsGoInt g) :
    projectIdAndGroupIdFromId (buildTwoPartID p (Itoa g)) = (p, g, none) := by
  rw [decode_build p (Itoa g) hp (Itoa_no_colon g), Atoi_Itoa g hg]

/-- A successful decoding comes from an identity with exactly one colon, whose
two sides are the project ID and a text that converts to the group ID. -/
theorem decode_ok (id p : String) (g : Int)
    (h : projectIdAndGroupIdFromId id = (p, g, none)) :
    ∃ b : String, splitColon id.toList = [p.toList, b.toList] ∧ Atoi b = (g, none) := by
  by_cases hl : (splitColon id.toList).length = 2
  · match hs : splitColon id.toList, hl with
    | [a, b], _ =>
      have hp : parseTwoPartID id = (String.mk a, String.mk b, none) := by
        unfold parseTwoPartID
        rw [hs]
      simp only [projectIdAndGroupIdFromId, hp, ne_eq, not_true_eq_false, if_false,
        Prod.mk.injEq] at h
      obtain ⟨h1, h2, h3⟩ := h
      refine ⟨String.mk b, ?_, Prod.ext h2 h3⟩
      rw [← h1]
      rfl
  · have := decode_error_of_split id hl
    rw [h] at this
    simp at this

/-! ## Lemmas on the access-level table -/

/-- In a bidirectional table the code of a listed name maps back to the name. -/
theorem accessLevel_accessLevelID (tbl : AccessLevelTable) (hb : Bidirectional tbl)
    (k : String) (hk : k ∈ tbl.map Prod.fst) : accessLevel tbl (accessLevelID tbl k) = k := by
  obtain ⟨e, he, hek⟩ := List.mem_map.mp hk
  cases h0 : tbl.find? (fun e => e.1 == k) with
  | none =>
    have := List.find?_eq_none.mp h0 e he
    simp [hek] at this
  | some e0 =>
    have h0k : e0.1 = k := by simpa using List.find?_some h0
    have h0m : e0 ∈ tbl := List.mem_of_find?_eq_some h0
    cases h1 : tbl.find? (fun e => e.2 == e0.2) with
    | none =>
      have := List.find?_eq_none.mp h1 e0 h0m
      simp at this
    | some e1 =>
      have h1v : e1.2 = e0.2 := by simpa using List.find?_some h1
      have h1m : e1 ∈ tbl := List.mem_of_find?_eq_some h1
      have heq : e1 = e0 := List.inj_on_of_nodup_map hb h1m h0m h1v
      simp [accessLevel, accessLevelID, h0, h1, heq, h0k]

/-- The accepted levels are the listed names other than owner. -/
theorem mem_acceptedAccessLevels (tbl : AccessLevelTable) (k : String) :
    k ∈ acceptedAccessLevels tbl ↔ k ∈ tbl.map Prod.fst ∧ k ≠ "owner" := by
  simp [acceptedAccessLevels]

/-! ## Lemmas on Read -/

/-- Writing an entry to the state fixes all four fields. -/
theorem setToState_eq (tbl : AccessLevelTable) (d : ResourceData) (v : SharedGroup)
    (p : String) :
    resourceGitlabProjectShareGroupSetToState tbl d v p
      = ⟨p, v.GroupID, accessLevel tbl v.GroupAccessLevel, buildTwoPartID p (Itoa v.GroupID)⟩ :=
  rfl

theorem scan_append (tbl : AccessLevelTable) (p : String) (g : Int) :
    ∀ (l1 l2 : List SharedGroup) (d : ResourceData),
      scanSharedWithGroups tbl p g d (l1 ++ l2)
        = scanSharedWithGroups tbl p g (scanSharedWithGroups tbl p g d l1) l2 := by
  intro l1
  induction l1 with
  | nil => intro l2 d; rfl
  | cons v vs ih =>
    intro l2 d
    rw [List.cons_append]
    simp only [scanSharedWithGroups]
    split <;> exact ih _ _

/-- The scan leaves the state alone when no entry has the group ID. -/
theorem scan_no_match (tbl : AccessLevelTable) (p : String) (g : Int) :
    ∀ (l : List SharedGroup) (d : ResourceData), (∀ v ∈ l, v.GroupID ≠ g) →
      scanSharedWithGroups tbl p g d l = d := by
  intro l
  induction l with
  | nil => intro d _; rfl
  | cons v vs ih =>
    intro d h
    have hv : ¬ g = v.GroupID := fun e => h v (by simp) e.symm
    simp only [scanSharedWithGroups, hv, if_false]
    exact ih d (fun w hw => h w (by simp [hw]))

/-- The scan ends with the state written from the last entry that has the
group ID. -/
theorem scan_last_match (tbl : AccessLevelTable) (p : String) (g : Int)
    (pre post : List SharedGroup) (v : SharedGroup) (d : ResourceData)
    (hv : v.GroupID = g) (hpost : ∀ w ∈ post, w.GroupID ≠ g) :
    scanSharedWithGroups tbl p g d (pre ++ v :: post)
      = ⟨p, g, accessLevel tbl v.GroupAccessLevel, buildTwoPartID p (Itoa g)⟩ := by
  rw [scan_append]
  simp only [scanSharedWithGroups, hv, if_true]
  rw [scan_no_match tbl p g post _ hpost, setToState_eq, hv]

/-- The scan keeps an id that already is the identity of the scanned pair. -/
theorem scan_id (tbl : AccessLevelTable) (p : String) (g : Int) :
    ∀ (l : List SharedGroup) (d : ResourceData), d.id = buildTwoPartID p (Itoa g) →
      (scanSharedWithGroups tbl p g d l).id = buildTwoPartID p (Itoa g) := by
  intro l
  induction l with
  | nil => intro d h; exact h
  | cons v vs ih =>
    intro d h
    by_cases hv : g = v.GroupID
    · rw [scanSharedWithGroups, if_pos hv]
      exact ih (resourceGitlabProjectShareGroupSetToState tbl d v p)
        (by rw [setToState_eq, ← hv])
    · rw [scanSharedWithGroups, if_neg hv]
      exact ih d h

/-- Read on an id that decodes, when the project fetch succeeds. -/
theorem read_ok {σ : Type} (tbl : AccessLevelTable) (client : Client σ) (d : ResourceData)
    (s s1 : σ) (p : String) (g : Int) (proj : Project)
    (hid : projectIdAndGroupIdFromId d.id = (p, g, none))
    (hget : client.GetProject s p = (Except.ok proj, s1)) :
    resourceGitlabProjectShareGroupRead tbl client d s
      = ⟨none, scanSharedWithGroups tbl p g d proj.SharedWithGroups, s1,
          [Call.GetProject p (Except.ok proj)]⟩ := by
  simp [resourceGitlabProjectShareGroupRead, hid, hget]

/-- Read issues no share request. -/
theorem read_no_share {σ : Type} (tbl : AccessLevelTable) (client : Client σ)
    (d : ResourceData) (s : σ) :
    shareRequests (resourceGitlabProjectShareGroupRead tbl client d s).calls = [] ∧
      ∀ c ∈ (resourceGitlabProjectShareGroupRead tbl client d s).calls, c.isShare = false := by
  rcases hdec : projectIdAndGroupIdFromId d.id with ⟨p, g, e⟩
  cases e with
  | some e => simp [resourceGitlabProjectShareGroupRead, hdec, shareRequests]
  | none =>
    rcases hget : client.GetProject s p with ⟨res, s1⟩
    cases res <;>
      simp [resourceGitlabProjectShareGroupRead, hdec, hget, shareRequests, Call.isShare]

/-- The identity built by Create decodes, if at all, to the pair it was built
from. -/
theorem decode_build_ok (p p1 : String) (g g1 : Int) (hg : IsGoInt g)
    (h : projectIdAndGroupIdFromId (buildTwoPartID p (Itoa g)) = (p1, g1, none)) :
    p1 = p ∧ g1 = g := by
  have hp : ':' ∉ p.toList := by
    intro hc
    have hlen : (splitColon (buildTwoPartID p (Itoa g)).toList).length ≠ 2 := by
      rw [splitColon_length, buildTwoPartID_toList, List.count_append, List.count_cons_self]
      have := List.count_pos_iff.mpr hc
      omega
    have := decode_error_of_split _ hlen
    rw [h] at this
    simp at this
  rw [decode_build p (Itoa g) hp (Itoa_no_colon g), Atoi_Itoa g hg] at h
  simp only [Prod.mk.injEq, and_true] at h
  exact ⟨h.1.symm, h.2.symm⟩

/-! ## Composite identity -/

/-- C1 (amended): for every project ID string without a colon and every group
ID that a 64-bit Go int holds, decoding the identity that Create builds returns
the project ID and the group ID with no error. -/
theorem identity_round_trip (p : String) (g : Int) (hp : ':' ∉ p.toList) (hg : IsGoInt g) :
    projectIdAndGroupIdFromId (buildTwoPartID p (Itoa g)) = (p, g, none) := by
  have hsplit := parseTwoPartID_build p (Itoa g) hp (Itoa_no_colon g)
  have hconv := Atoi_Itoa g hg
  simp [projectIdAndGroupIdFromId, hsplit, hconv]

/-- C1 at project "42" and group 7. -/
theorem identity_round_trip_witness :
    ':' ∉ "42".toList ∧ IsGoInt 7 ∧
      projectIdAndGroupIdFromId (buildTwoPartID "42" (Itoa 7)) = ("42", 7, none) :=
  ⟨by decide, by decide, identity_round_trip "42" 7 (by decide) (by decide)⟩

/-- C1 as stated fails for a project ID with a colon: the identity of project
"a:b" and group 7 has three parts and decodes to an error. -/
theorem identity_round_trip_counterexample :
    IsGoInt 7 ∧
      projectIdAndGroupIdFromId (buildTwoPartID "a:b" (Itoa 7))
        = ("", 0, some (GoError.UnexpectedID "a:b:7")) ∧
      projectIdAndGroupIdFromId (buildTwoPartID "a:b" (Itoa 7)) ≠ ("a:b", 7, none) := by
  decide

/-- C2: an identity without the separator, and an identity whose text after
the separator does not convert to an integer, both decode to an error. -/
theorem decode_failure (id : String)
    (h : ':' ∉ id.toList ∨ ∃ a b : String, id = buildTwoPartID a b ∧ (Atoi b).2 ≠ none) :
    (projectIdAndGroupIdFromId id).2.2 ≠ none := by
  rcases h with h | ⟨a, b, rfl, hb⟩
  · rw [decode_error_of_split id (by rw [splitColon_no_colon _ h]; simp)]
    simp
  · by_cases hc : ':' ∈ a.toList ∨ ':' ∈ b.toList
    · have hlen : (splitColon (buildTwoPartID a b).toList).length ≠ 2 := by
        rw [splitColon_length, buildTwoPartID_toList, List.count_append, List.count_cons_self]
        rcases hc with hc | hc
        · have := List.count_pos_iff.mpr hc
          omega
        · have := List.count_pos_iff.mpr hc
          omega
      rw [decode_error_of_split _ hlen]
      simp
    · rw [decode_build a b (fun e => hc (Or.inl e)) (fun e => hc (Or.inr e))]
      exact hb

/-- C2 at "42" (no separator) and at "42:x" (second part not a number). -/
theorem decode_failure_witness :
    ':' ∉ "42".toList ∧ (projectIdAndGroupIdFromId "42").2.2 ≠ none ∧
      (∃ a b : String, "42:x" = buildTwoPartID a b ∧ (Atoi b).2 ≠ none) ∧
      (projectIdAndGroupIdFromId "42:x").2.2 ≠ none :=
  ⟨by decide, decode_failure "42" (Or.inl (by decide)),
    ⟨"42", "x", by decide, by decide⟩,
    decode_failure "42:x" (Or.inr ⟨"42", "x", by decide, by decide⟩)⟩

/-! ## Access-level translation -/

/-- C3: in a bidirectional table, every accepted access level (a key other than
owner) translated to its code as Create does and back as Read does is the level
itself. -/
theorem access_level_round_trip (tbl : AccessLevelTable) (hb : Bidirectional tbl)
    (s : String) (hs : s ∈ acceptedAccessLevels tbl) :
    accessLevel tbl (accessLevelID tbl s) = s :=
  accessLevel_accessLevelID tbl hb s ((mem_acceptedAccessLevels tbl s).mp hs).1

/-- C3 at the GitLab table and the level developer. -/
theorem access_level_round_trip_witness :
    Bidirectional gitlabAccessLevels ∧ "developer" ∈ acceptedAccessLevels gitlabAccessLevels ∧
      accessLevel gitlabAccessLevels (accessLevelID gitlabAccessLevels "developer")
        = "developer" :=
  ⟨by decide, by decide,
    access_level_round_trip gitlabAccessLevels (by decide) "developer" (by decide)⟩

/-- C4: when the access level is owner or is not a key of the table, Create and
Update as run behind the schema validation fail with the validation error,
issue no client call, and leave the data and the server as they were. -/
theorem validation_rejects {σ : Type} (unicodeToLower : Char → Char) (tbl : AccessLevelTable)
    (client : Client σ) (d : ResourceData) (s : σ)
    (h : d.access_level = "owner" ∨ d.access_level ∉ tbl.map Prod.fst) :
    (applyCreate (resourceGitlabProjectShareGroup unicodeToLower tbl) client d s).err
        = some (GoError.InvalidValue d.access_level "access_level") ∧
      (applyCreate (resourceGitlabProjectShareGroup unicodeToLower tbl) client d s).calls = [] ∧
      (applyCreate (resourceGitlabProjectShareGroup unicodeToLower tbl) client d s).d = d ∧
      (applyCreate (resourceGitlabProjectShareGroup unicodeToLower tbl) client d s).server = s ∧
      (applyUpdate (resourceGitlabProjectShareGroup unicodeToLower tbl) client d s).err
        = some (GoError.InvalidValue d.access_level "access_level") ∧
      (applyUpdate (resourceGitlabProjectShareGroup unicodeToLower tbl) client d s).calls = [] ∧
      (applyUpdate (resourceGitlabProjectShareGroup unicodeToLower tbl) client d s).d = d ∧
      (applyUpdate (resourceGitlabProjectShareGroup unicodeToLower tbl) client d s).server = s := by
  have hn : d.access_level ∉ acceptedAccessLevels tbl := by
    rw [mem_acceptedAccessLevels]
    rcases h with h | h
    · exact fun e => e.2 h
    · exact fun e => h e.1
  simp [applyCreate, applyUpdate, validated, resourceGitlabProjectShareGroup,
    validateValueFunc, hn]

/-- C4 at the GitLab table for the level owner and for an unknown level. -/
theorem validation_rejects_witness :
    (applyCreate (resourceGitlabProjectShareGroup id gitlabAccessLevels)
        (fixedClient none (Except.ok ⟨[]⟩) none) ⟨"42", 7, "owner", ""⟩ ()).calls = [] ∧
      (applyUpdate (resourceGitlabProjectShareGroup id gitlabAccessLevels)
        (fixedClient none (Except.ok ⟨[]⟩) none) ⟨"42", 7, "admin", "42:7"⟩ ()).calls = [] :=
  ⟨(validation_rejects id gitlabAccessLevels (fixedClient none (Except.ok ⟨[]⟩) none)
      ⟨"42", 7, "owner", ""⟩ () (Or.inl rfl)).2.1,
    (validation_rejects id gitlabAccessLevels (fixedClient none (Except.ok ⟨[]⟩) none)
      ⟨"42", 7, "admin", "42:7"⟩ () (Or.inr (by decide))).2.2.2.2.2.1⟩

/-! ## Create, Read, Update, Delete -/

/-- C5: Create sends the client the share request of the configured project ID,
group ID and access code, and no other share request; and when its calls are
that share call and a project fetch, both answered without error, Create
returns no error and the id is the project ID, a colon and the group ID. For a
project ID without a colon these two calls are what Create issues whenever the
client answers both without error. -/
theorem create_shares_then_sets_id {σ : Type} (tbl : AccessLevelTable) (client : Client σ)
    (d : ResourceData) (s : σ) (hg : IsGoInt d.group_id) :
    (∃ (e : Option GoError) (rest : List Call),
        (resourceGitlabProjectShareGroupCreate tbl client d s).calls
          = Call.ShareProjectWithGroup d.project_id
              ⟨d.group_id, accessLevelID tbl d.access_level⟩ e :: rest ∧
        ∀ c ∈ rest, c.isShare = false) ∧
      (∀ (pid : String) (proj : Project),
        (resourceGitlabProjectShareGroupCreate tbl client d s).calls
          = [Call.ShareProjectWithGroup d.project_id
              ⟨d.group_id, accessLevelID tbl d.access_level⟩ none,
             Call.GetProject pid (Except.ok proj)] →
        (resourceGitlabProjectShareGroupCreate tbl client d s).err = none ∧
          (resourceGitlabProjectShareGroupCreate tbl client d s).d.id
            = buildTwoPartID d.project_id (Itoa d.group_id)) ∧
      ∀ (s1 s2 : σ) (proj : Project), ':' ∉ d.project_id.toList →
        client.ShareProjectWithGroup s d.project_id
            ⟨d.group_id, accessLevelID tbl d.access_level⟩ = (none, s1) →
        client.GetProject s1 d.project_id = (Except.ok proj, s2) →
        (resourceGitlabProjectShareGroupCreate tbl client d s).calls
            = [Call.ShareProjectWithGroup d.project_id
                ⟨d.group_id, accessLevelID tbl d.access_level⟩ none,
               Call.GetProject d.project_id (Except.ok proj)] ∧
          (resourceGitlabProjectShareGroupCreate tbl client d s).err = none ∧
          (resourceGitlabProjectShareGroupCreate tbl client d s).d.id
            = buildTwoPartID d.project_id (Itoa d.group_id) := by
  refine ⟨?_, ?_, ?_⟩
  · rcases hshare : client.ShareProjectWithGroup s d.project_id
        ⟨d.group_id, accessLevelID tbl d.access_level⟩ with ⟨e, s1⟩
    cases e with
    | some e =>
      exact ⟨some e, [], by simp [resourceGitlabProjectShareGroupCreate, hshare], by simp⟩
    | none =>
      exact ⟨none,
        (resourceGitlabProjectShareGroupRead tbl client
          { d with id := buildTwoPartID d.project_id (Itoa d.group_id) } s1).calls,
        by simp [resourceGitlabProjectShareGroupCreate, hshare],
        (read_no_share tbl client _ s1).2⟩
  · intro pid proj h
    rcases hshare : client.ShareProjectWithGroup s d.project_id
        ⟨d.group_id, accessLevelID tbl d.access_level⟩ with ⟨e, s1⟩
    cases e with
    | some e => simp [resourceGitlabProjectShareGroupCreate, hshare] at h
    | none =>
      rcases hdec : projectIdAndGroupIdFromId (buildTwoPartID d.project_id (Itoa d.group_id))
        with ⟨p1, g1, e1⟩
      cases e1 with
      | some e1 =>
        simp [resourceGitlabProjectShareGroupCreate, hshare,
          resourceGitlabProjectShareGroupRead, hdec] at h
      | none =>
        obtain ⟨hp1, hg1⟩ := decode_build_ok _ _ _ _ hg hdec
        subst hp1 hg1
        rcases hget : client.GetProject s1 d.project_id with ⟨res, s2⟩
        cases res with
        | error err =>
          simp [resourceGitlabProjectShareGroupCreate, hshare,
            resourceGitlabProjectShareGroupRead, hdec, hget] at h
        | ok proj1 =>
          have hr := read_ok tbl client
            { d with id := buildTwoPartID d.project_id (Itoa d.group_id) } s1 s2
            d.project_id d.group_id proj1 hdec hget
          simp only [resourceGitlabProjectShareGroupCreate, hshare, hr, true_and]
          exact scan_id tbl _ _ _ _ rfl
  · intro s1 s2 proj hp hshare hget
    have hdec := decode_build_Itoa d.project_id d.group_id hp hg
    have hr := read_ok tbl client
      { d with id := buildTwoPartID d.project_id (Itoa d.group_id) } s1 s2
      d.project_id d.group_id proj hdec hget
    simp only [resourceGitlabProjectShareGroupCreate, hshare, hr, true_and]
    exact scan_id tbl _ _ _ _ rfl

/-- C5 at project "42", group 7 and level developer: the share request carries
code 30 and the id becomes "42:7". -/
theorem create_shares_then_sets_id_witness :
    IsGoInt 7 ∧
      (resourceGitlabProjectShareGroupCreate gitlabAccessLevels
          (fixedClient none (Except.ok ⟨[⟨7, "devs", 30⟩]⟩) none)
          ⟨"42", 7, "developer", ""⟩ ()).calls
        = [Call.ShareProjectWithGroup "42" ⟨7, 30⟩ none,
           Call.GetProject "42" (Except.ok ⟨[⟨7, "devs", 30⟩]⟩)] ∧
      (resourceGitlabProjectShareGroupCreate gitlabAccessLevels
          (fixedClient none (Except.ok ⟨[⟨7, "devs", 30⟩]⟩) none)
          ⟨"42", 7, "developer", ""⟩ ()).err = none ∧
      (resourceGitlabProjectShareGroupCreate gitlabAccessLevels
          (fixedClient none (Except.ok ⟨[⟨7, "devs", 30⟩]⟩) none)
          ⟨"42", 7, "developer", ""⟩ ()).d.id = "42:7" :=
  ⟨by decide, rfl,
    (create_shares_then_sets_id gitlabAccessLevels
      (fixedClient none (Except.ok ⟨[⟨7, "devs", 30⟩]⟩) none)
      ⟨"42", 7, "developer", ""⟩ () (by decide)).2.1 "42" ⟨[⟨7, "devs", 30⟩]⟩ rfl⟩

/-- C6 (amended): when the id decodes to a project ID and a group ID, the
project fetch succeeds and the share list has an entry with that group ID, Read
returns no error and the state holds the project ID, the group ID, their
identity, and the level name of the last such entry in list order. -/
theorem read_share_found {σ : Type} (tbl : AccessLevelTable) (client : Client σ)
    (d : ResourceData) (s s1 : σ) (p : String) (g : Int) (proj : Project)
    (pre post : List SharedGroup) (v : SharedGroup)
    (hid : projectIdAndGroupIdFromId d.id = (p, g, none))
    (hget : client.GetProject s p = (Except.ok proj, s1))
    (hl : proj.SharedWithGroups = pre ++ v :: post)
    (hv : v.GroupID = g) (hpost : ∀ w ∈ post, w.GroupID ≠ g) :
    resourceGitlabProjectShareGroupRead tbl client d s
      = ⟨none, ⟨p, g, accessLevel tbl v.GroupAccessLevel, buildTwoPartID p (Itoa g)⟩, s1,
          [Call.GetProject p (Except.ok proj)]⟩ := by
  rw [read_ok tbl client d s s1 p g proj hid hget, hl,
    scan_last_match tbl p g pre post v d hv hpost]

/-- C6 at id "42:7" with one share of group 7 at code 30. -/
theorem read_share_found_witness :
    resourceGitlabProjectShareGroupRead gitlabAccessLevels
        (fixedClient none (Except.ok ⟨[⟨7, "devs", 30⟩]⟩) none) ⟨"", 0, "", "42:7"⟩ ()
      = ⟨none, ⟨"42", 7, "developer", "42:7"⟩, (),
          [Call.GetProject "42" (Except.ok ⟨[⟨7, "devs", 30⟩]⟩)]⟩ :=
  read_share_found gitlabAccessLevels (fixedClient none (Except.ok ⟨[⟨7, "devs", 30⟩]⟩) none)
    ⟨"", 0, "", "42:7"⟩ () () "42" 7 ⟨[⟨7, "devs", 30⟩]⟩ [] [] ⟨7, "devs", 30⟩
    (by decide) rfl rfl rfl (by simp)

/-- C6 as stated fails when two entries have the group ID: the first entry for
group 7 has code 30 (developer), and Read leaves the level of the second one,
maintainer. -/
theorem read_share_found_counterexample :
    projectIdAndGroupIdFromId "42:7" = ("42", 7, none) ∧
      ([⟨7, "devs", 30⟩, ⟨7, "devs", 40⟩] : List SharedGroup).find? (fun v => v.GroupID == 7)
        = some ⟨7, "devs", 30⟩ ∧
      accessLevel gitlabAccessLevels 30 = "developer" ∧
      (resourceGitlabProjectShareGroupRead gitlabAccessLevels
          (fixedClient none (Except.ok ⟨[⟨7, "devs", 30⟩, ⟨7, "devs", 40⟩]⟩) none)
          ⟨"42", 7, "guest", "42:7"⟩ ()).err = none ∧
      (resourceGitlabProjectShareGroupRead gitlabAccessLevels
          (fixedClient none (Except.ok ⟨[⟨7, "devs", 30⟩, ⟨7, "devs", 40⟩]⟩) none)
          ⟨"42", 7, "guest", "42:7"⟩ ()).d.access_level = "maintainer" := by
  decide

/-- C7: when the id decodes to a project ID and a group ID, the project fetch
succeeds and no entry of the share list has that group ID, Read returns no
error and the state is what it was. -/
theorem read_share_missing {σ : Type} (tbl : AccessLevelTable) (client : Client σ)
    (d : ResourceData) (s s1 : σ) (p : String) (g : Int) (proj : Project)
    (hid : projectIdAndGroupIdFromId d.id = (p, g, none))
    (hget : client.GetProject s p = (Except.ok proj, s1))
    (hno : ∀ v ∈ proj.SharedWithGroups, v.GroupID ≠ g) :
    (resourceGitlabProjectShareGroupRead tbl client d s).err = none ∧
      (resourceGitlabProjectShareGroupRead tbl client d s).d = d := by
  rw [read_ok tbl client d s s1 p g proj hid hget,
    scan_no_match tbl p g proj.SharedWithGroups d hno]
  exact ⟨rfl, rfl⟩

/-- C7 at id "42:7" when the project is shared with group 8 only. -/
theorem read_share_missing_witness :
    (resourceGitlabProjectShareGroupRead gitlabAccessLevels
        (fixedClient none (Except.ok ⟨[⟨8, "ops", 40⟩]⟩) none)
        ⟨"42", 7, "developer", "42:7"⟩ ()).err = none ∧
      (resourceGitlabProjectShareGroupRead gitlabAccessLevels
        (fixedClient none (Except.ok ⟨[⟨8, "ops", 40⟩]⟩) none)
        ⟨"42", 7, "developer", "42:7"⟩ ()).d = ⟨"42", 7, "developer", "42:7"⟩ :=
  read_share_missing gitlabAccessLevels (fixedClient none (Except.ok ⟨[⟨8, "ops", 40⟩]⟩) none)
    ⟨"42", 7, "developer", "42:7"⟩ () () "42" 7 ⟨[⟨8, "ops", 40⟩]⟩
    (by decide) rfl (by decide)

/-- C8: when the id decodes, Delete issues the one call that deletes the share
of the decoded project and group and returns what that call returned; when the
id does not decode, Delete returns the decode error and issues no call. -/
theorem delete_calls {σ : Type} (client : Client σ) (d : ResourceData) (s : σ) :
    (∀ (p : String) (g : Int), projectIdAndGroupIdFromId d.id = (p, g, none) →
        (resourceGitlabProjectShareGroupDelete client d s).calls
          = [Call.DeleteSharedProjectFromGroup p g
              (client.DeleteSharedProjectFromGroup s p g).1] ∧
        (resourceGitlabProjectShareGroupDelete client d s).err
          = (client.DeleteSharedProjectFromGroup s p g).1) ∧
      ∀ (p : String) (g : Int) (e : GoError),
        projectIdAndGroupIdFromId d.id = (p, g, some e) →
        (resourceGitlabProjectShareGroupDelete client d s).err = some e ∧
          (resourceGitlabProjectShareGroupDelete client d s).calls = [] := by
  constructor
  · intro p g h
    simp [resourceGitlabProjectShareGroupDelete, h]
  · intro p g e h
    simp [resourceGitlabProjectShareGroupDelete, h]

/-- C8 at id "42:7" with a failing delete call, and at the id "42". -/
theorem delete_calls_witness :
    ((resourceGitlabProjectShareGroupDelete
          (fixedClient none (Except.ok ⟨[]⟩) (some (GoError.API "403"))) ⟨"", 0, "", "42:7"⟩
          ()).calls
        = [Call.DeleteSharedProjectFromGroup "42" 7 (some (GoError.API "403"))] ∧
      (resourceGitlabProjectShareGroupDelete
          (fixedClient none (Except.ok ⟨[]⟩) (some (GoError.API "403"))) ⟨"", 0, "", "42:7"⟩
          ()).err = some (GoError.API "403")) ∧
      ((resourceGitlabProjectShareGroupDelete
          (fixedClient none (Except.ok ⟨[]⟩) none) ⟨"", 0, "", "42"⟩ ()).err
        = some (GoError.UnexpectedID "42") ∧
      (resourceGitlabProjectShareGroupDelete
          (fixedClient none (Except.ok ⟨[]⟩) none) ⟨"", 0, "", "42"⟩ ()).calls = []) :=
  ⟨(delete_calls (fixedClient none (Except.ok ⟨[]⟩) (some (GoError.API "403")))
      ⟨"", 0, "", "42:7"⟩ ()).1 "42" 7 (by decide),
    (delete_calls (fixedClient none (Except.ok ⟨[]⟩) none) ⟨"", 0, "", "42"⟩ ()).2
      "" 0 (GoError.UnexpectedID "42") (by decide)⟩

/-- C9: when the share call fails, Create returns that error, issues no other
call, and leaves the state with its id as it was; so does Update. -/
theorem share_failure_surfaced {σ : Type} (unicodeToLower : Char → Char)
    (tbl : AccessLevelTable) (client : Client σ) (d : ResourceData) (s : σ) :
    (∀ (E : GoError) (s1 : σ),
        client.ShareProjectWithGroup s d.project_id
            ⟨d.group_id, accessLevelID tbl d.access_level⟩ = (some E, s1) →
        resourceGitlabProjectShareGroupCreate tbl client d s
          = ⟨some E, d, s1,
              [Call.ShareProjectWithGroup d.project_id
                ⟨d.group_id, accessLevelID tbl d.access_level⟩ (some E)]⟩) ∧
      ∀ (E : GoError) (s1 : σ),
        client.ShareProjectWithGroup s d.project_id
            ⟨d.group_id, accessLevelID tbl (ToLower unicodeToLower d.access_level)⟩
          = (some E, s1) →
        resourceGitlabProjectShareGroupUpdate unicodeToLower tbl client d s
          = ⟨some E, d, s1,
              [Call.ShareProjectWithGroup d.project_id
                ⟨d.group_id, accessLevelID tbl (ToLower unicodeToLower d.access_level)⟩
                (some E)]⟩ := by
  constructor
  · intro E s1 h
    simp [resourceGitlabProjectShareGroupCreate, h]
  · intro E s1 h
    simp [resourceGitlabProjectShareGroupUpdate, h]

/-- C9 at a client whose share call answers 404. -/
theorem share_failure_surfaced_witness :
    resourceGitlabProjectShareGroupCreate gitlabAccessLevels
        (fixedClient (some (GoError.API "404")) (Except.ok ⟨[]⟩) none)
        ⟨"42", 7, "developer", ""⟩ ()
      = ⟨some (GoError.API "404"), ⟨"42", 7, "developer", ""⟩, (),
          [Call.ShareProjectWithGroup "42" ⟨7, 30⟩ (some (GoError.API "404"))]⟩ ∧
      resourceGitlabProjectShareGroupUpdate Char.toLower gitlabAccessLevels
        (fixedClient (some (GoError.API "404")) (Except.ok ⟨[]⟩) none)
        ⟨"42", 7, "developer", "42:7"⟩ ()
      = ⟨some (GoError.API "404"), ⟨"42", 7, "developer", "42:7"⟩, (),
          [Call.ShareProjectWithGroup "42" ⟨7, 30⟩ (some (GoError.API "404"))]⟩ :=
  ⟨(share_failure_surfaced Char.toLower gitlabAccessLevels
      (fixedClient (some (GoError.API "404")) (Except.ok ⟨[]⟩) none)
      ⟨"42", 7, "developer", ""⟩ ()).1 (GoError.API "404") () rfl,
    (share_failure_surfaced Char.toLower gitlabAccessLevels
      (fixedClient (some (GoError.API "404")) (Except.ok ⟨[]⟩) none)
      ⟨"42", 7, "developer", "42:7"⟩ ()).2 (GoError.API "404") () rfl⟩

/-- The share request of Create: the configured project ID and group ID with
the code of the access level as written. It is the only share request. -/
theorem create_requests {σ : Type} (tbl : AccessLevelTable) (client : Client σ)
    (d : ResourceData) (s : σ) :
    shareRequests (resourceGitlabProjectShareGroupCreate tbl client d s).calls
      = [(d.project_id, ⟨d.group_id, accessLevelID tbl d.access_level⟩)] := by
  rcases hshare : client.ShareProjectWithGroup s d.project_id
      ⟨d.group_id, accessLevelID tbl d.access_level⟩ with ⟨e, s1⟩
  cases e with
  | some e => simp [resourceGitlabProjectShareGroupCreate, hshare, shareRequests]
  | none =>
    simp [resourceGitlabProjectShareGroupCreate, hshare, shareRequests,
      (read_no_share tbl client _ s1).1]

/-- The share request of Update: the configured project ID and group ID with
the code of the lower-cased access level. It is the only share request. -/
theorem update_requests {σ : Type} (unicodeToLower : Char → Char) (tbl : AccessLevelTable)
    (client : Client σ) (d : ResourceData) (s : σ) :
    shareRequests (resourceGitlabProjectShareGroupUpdate unicodeToLower tbl client d s).calls
      = [(d.project_id,
          ⟨d.group_id, accessLevelID tbl (ToLower unicodeToLower d.access_level)⟩)] := by
  rcases hshare : client.ShareProjectWithGroup s d.project_id
      ⟨d.group_id, accessLevelID tbl (ToLower unicodeToLower d.access_level)⟩ with ⟨e, s1⟩
  cases e with
  | some e => simp [resourceGitlabProjectShareGroupUpdate, hshare, shareRequests]
  | none =>
    simp [resourceGitlabProjectShareGroupUpdate, hshare, shareRequests,
      (read_no_share tbl client _ s1).1]

/-- C10: Create sends one share request, with the code of the access level as
written, and Update sends one, with the code of the lower-cased access level.
Whenever the two lookups agree, which covers every string that lower-casing
leaves as it is, Update sends the request that Create sends. Behind the schema
validation, when the lookups agree on the accepted levels, Update and Create
send the same share requests for every access level string: the same single
request for an accepted level, and none for any other string. -/
theorem update_request_eq_create {σ : Type} (unicodeToLower : Char → Char)
    (tbl : AccessLevelTable) (client : Client σ) (d : ResourceData) (s : σ) :
    shareRequests (resourceGitlabProjectShareGroupCreate tbl client d s).calls
        = [(d.project_id, ⟨d.group_id, accessLevelID tbl d.access_level⟩)] ∧
      shareRequests (resourceGitlabProjectShareGroupUpdate unicodeToLower tbl client d s).calls
        = [(d.project_id,
            ⟨d.group_id, accessLevelID tbl (ToLower unicodeToLower d.access_level)⟩)] ∧
      (accessLevelID tbl (ToLower unicodeToLower d.access_level)
          = accessLevelID tbl d.access_level →
        shareRequests
            (resourceGitlabProjectShareGroupUpdate unicodeToLower tbl client d s).calls
          = shareRequests (resourceGitlabProjectShareGroupCreate tbl client d s).calls) ∧
      ((∀ k ∈ acceptedAccessLevels tbl,
          accessLevelID tbl (ToLower unicodeToLower k) = accessLevelID tbl k) →
        shareRequests
            (applyUpdate (resourceGitlabProjectShareGroup unicodeToLower tbl) client d s).calls
          = shareRequests
            (applyCreate (resourceGitlabProjectShareGroup unicodeToLower tbl) client d s).calls ∧
        (d.access_level ∈ acceptedAccessLevels tbl →
          shareRequests
              (applyCreate (resourceGitlabProjectShareGroup unicodeToLower tbl) client d s).calls
            = [(d.project_id, ⟨d.group_id, accessLevelID tbl d.access_level⟩)])) := by
  have hc := create_requests tbl client d s
  have hu := update_requests unicodeToLower tbl client d s
  refine ⟨hc, hu, ?_, ?_⟩
  · intro h
    rw [hu, hc, h]
  · intro hk
    by_cases hs : d.access_level ∈ acceptedAccessLevels tbl
    · have hv : (validateValueFunc (acceptedAccessLevels tbl) d.access_level
          "access_level").2 = [] := by
        simp [validateValueFunc, hs]
      simp only [applyUpdate, applyCreate, validated, resourceGitlabProjectShareGroup, hv]
      exact ⟨by rw [hu, hc, hk _ hs], fun _ => hc⟩
    · have hv : (validateValueFunc (acceptedAccessLevels tbl) d.access_level
          "access_level").2 = [GoError.InvalidValue d.access_level "access_level"] := by
        simp [validateValueFunc, hs]
      simp only [applyUpdate, applyCreate, validated, resourceGitlabProjectShareGroup, hv]
      exact ⟨trivial, fun h => absurd h hs⟩

/-- C10 at the GitLab table: the raw callbacks at the level owner, which
lower-casing leaves as it is, and the validated callbacks at the level
developer, where both send the request with code 30. -/
theorem update_request_eq_create_witness :
    (accessLevelID gitlabAccessLevels (ToLower Char.toLower "owner")
        = accessLevelID gitlabAccessLevels "owner" ∧
      shareRequests (resourceGitlabProjectShareGroupUpdate Char.toLower gitlabAccessLevels
          (fixedClient none (Except.ok ⟨[]⟩) none) ⟨"42", 7, "owner", "42:7"⟩ ()).calls
        = shareRequests (resourceGitlabProjectShareGroupCreate gitlabAccessLevels
          (fixedClient none (Except.ok ⟨[]⟩) none) ⟨"42", 7, "owner", "42:7"⟩ ()).calls) ∧
      (∀ k ∈ acceptedAccessLevels gitlabAccessLevels,
        accessLevelID gitlabAccessLevels (ToLower Char.toLower k)
          = accessLevelID gitlabAccessLevels k) ∧
      "developer" ∈ acceptedAccessLevels gitlabAccessLevels ∧
      shareRequests
          (applyUpdate (resourceGitlabProjectShareGroup Char.toLower gitlabAccessLevels)
            (fixedClient none (Except.ok ⟨[]⟩) none) ⟨"42", 7, "developer", "42:7"⟩ ()).calls
        = shareRequests
          (applyCreate (resourceGitlabProjectShareGroup Char.toLower gitlabAccessLevels)
            (fixedClient none (Except.ok ⟨[]⟩) none) ⟨"42", 7, "developer", "42:7"⟩ ()).calls ∧
      shareRequests
          (applyCreate (resourceGitlabProjectShareGroup Char.toLower gitlabAccessLevels)
            (fixedClient none (Except.ok ⟨[]⟩) none) ⟨"42", 7, "developer", "42:7"⟩ ()).calls
        = [("42", ⟨7, 30⟩)] :=
  ⟨⟨by decide,
      (update_request_eq_create Char.toLower gitlabAccessLevels
        (fixedClient none (Except.ok ⟨[]⟩) none) ⟨"42", 7, "owner", "42:7"⟩ ()).2.2.1
        (by decide)⟩,
    by decide, by decide,
    ((update_request_eq_create Char.toLower gitlabAccessLevels
      (fixedClient none (Except.ok ⟨[]⟩) none) ⟨"42", 7, "developer", "42:7"⟩ ()).2.2.2
      (by decide)).1,
    ((update_request_eq_create Char.toLower gitlabAccessLevels
      (fixedClient none (Except.ok ⟨[]⟩) none) ⟨"42", 7, "developer", "42:7"⟩ ()).2.2.2
      (by decide)).2 (by decide)⟩

/-- An access level with upper-case letters is outside what validation admits:
for "DEVELOPER" the callbacks on their own would send different codes (Create
the zero code of a missing key, Update the code 30 of developer), and behind
the schema validation neither sends a share request. -/
theorem upper_case_level_not_admitted :
    shareRequests (resourceGitlabProjectShareGroupCreate gitlabAccessLevels
        (fixedClient none (Except.ok ⟨[]⟩) none) ⟨"42", 7, "DEVELOPER", "42:7"⟩ ()).calls
      = [("42", ⟨7, 0⟩)] ∧
      shareRequests (resourceGitlabProjectShareGroupUpdate Char.toLower gitlabAccessLevels
        (fixedClient none (Except.ok ⟨[]⟩) none) ⟨"42", 7, "DEVELOPER", "42:7"⟩ ()).calls
      = [("42", ⟨7, 30⟩)] ∧
      shareRequests
          (applyCreate (resourceGitlabProjectShareGroup Char.toLower gitlabAccessLevels)
            (fixedClient none (Except.ok ⟨[]⟩) none) ⟨"42", 7, "DEVELOPER", "42:7"⟩ ()).calls
        = [] ∧
      shareRequests
          (applyUpdate (resourceGitlabProjectShareGroup Char.toLower gitlabAccessLevels)
            (fixedClient none (Except.ok ⟨[]⟩) none) ⟨"42", 7, "DEVELOPER", "42:7"⟩ ()).calls
        = [] := by
  decide

end Gitlab
